import Mathlib

/-!
Verification of the few-shot VLM training/evaluation control logic of
`src/fs/ln_only.py` and `src/fs/twostage.py`.

The embedding models the loop bookkeeping that the two files implement on top
of external collaborators (the CLIP encoders, optimizer, scheduler, gradient
scaler and data loaders).  Per-batch quantities that are produced by those
collaborators — the batch size, the scalar `cls_acc` value, the scalar loss,
and the gradient scaler's scale before and after `scaler.update()` — are
recorded in a `Batch` value; the trainer code under verification only reads
them.  Exact rationals stand in for the Python floats of the loop bookkeeping,
and real-valued vectors stand in for the embedding tensors of the classifier.
A computation that can raise an uncaught Python `ZeroDivisionError` is
embedded as a `PyResult`.
-/

/-- Result of an embedded Python computation that either returns normally or
raises an uncaught `ZeroDivisionError` (the only exception the embedded code
itself can raise, at the `acc /= tot_samples` averaging sites). -/
inductive PyResult (α : Type) where
  | ok (a : α)
  | zeroDivisionError
  deriving DecidableEq

/-- One training batch as observed by an epoch loop: `size` is
`target.shape[0]`, `acc` is the scalar `cls_acc(logits, target)`, `loss` is
`loss.item()` (all produced by external collaborators), and
`preScale`/`postScale` are the gradient scaler's scale as read by
`scaler.get_scale()` immediately before and immediately after
`scaler.update()` in that batch. -/
structure Batch where
  size : ℕ
  acc : ℚ
  loss : ℚ
  preScale : ℚ
  postScale : ℚ
  deriving DecidableEq

/-- The state threaded through one epoch pass: the iteration counter
`count_iters`, the running sums `acc_train` and `loss_epoch`, the sample count
`tot_samples`, and the number of `scheduler.step()` calls taken so far (the
scheduler state from which `get_last_lr` is later read). -/
structure LoopSt where
  count : ℕ
  accSum : ℚ
  lossSum : ℚ
  totSamples : ℕ
  schedSteps : ℕ
  deriving DecidableEq

/-- Loop state at the top of an epoch call: the incoming `count_iters` and the
freshly zeroed per-epoch accumulators. -/
def initSt (c : ℕ) : LoopSt :=
  ⟨c, 0, 0, 0, 0⟩

/-- The scaler-skip test of the two-stage trainers:
`skip_lr_sched = (scale > scaler.get_scale())`, where `scale` was read before
`scaler.update()` and `scaler.get_scale()` is read after it
(src/fs/twostage.py lines 163-166 and 222-225). -/
def skipLrSched (preScale postScale : ℚ) : Prop :=
  preScale > postScale

instance (p q : ℚ) : Decidable (skipLrSched p q) :=
  inferInstanceAs (Decidable (p > q))

/-- Body of one batch of the single-stage `train_epoch`
(src/fs/ln_only.py lines 18-52): `scheduler.step()` runs on every batch, the
running sums are accumulated weighted by the batch size, and `count_iters` is
incremented unconditionally. -/
def lnStep (b : Batch) (st : LoopSt) : LoopSt :=
  { count := st.count + 1
    accSum := st.accSum + b.acc * (b.size : ℚ)
    lossSum := st.lossSum + b.loss * (b.size : ℚ)
    totSamples := st.totSamples + b.size
    schedSteps := st.schedSteps + 1 }

/-- Batch loop of the single-stage `train_epoch` (src/fs/ln_only.py): after
each batch body the loop breaks as soon as `count_iters == total_iters`. -/
def lnLoop (total : ℕ) : List Batch → LoopSt → LoopSt
  | [], st => st
  | b :: bs, st =>
    let st' := lnStep b st
    if st'.count = total then st' else lnLoop total bs st'

/-- Body of one batch of the two-stage epoch functions
(src/fs/twostage.py lines 151-175 and 201-234): the scaler-skip test gates
both `scheduler.step()` and the `count_iters` increment; the running sums are
accumulated unconditionally. -/
def tsStep (b : Batch) (st : LoopSt) : LoopSt :=
  { count := if skipLrSched b.preScale b.postScale then st.count else st.count + 1
    accSum := st.accSum + b.acc * (b.size : ℚ)
    lossSum := st.lossSum + b.loss * (b.size : ℚ)
    totSamples := st.totSamples + b.size
    schedSteps := if skipLrSched b.preScale b.postScale then st.schedSteps else st.schedSteps + 1 }

/-- Batch loop shared by `train_epoch_second_stage` and the two-stage
`train_epoch` (src/fs/twostage.py): after each batch body the loop breaks as
soon as `count_iters == total_iters`. -/
def tsLoop (total : ℕ) : List Batch → LoopSt → LoopSt
  | [], st => st
  | b :: bs, st =>
    let st' := tsStep b st
    if st'.count = total then st' else tsLoop total bs st'

/-- Data of the per-epoch log line
`print('[{}/{}] LR: ..., Acc: ..., Loss: ...')`: the averaged accuracy, the
averaged loss, and the scheduler-step count from which `get_last_lr()` is
read. -/
structure LogRec where
  avgAcc : ℚ
  avgLoss : ℚ
  schedSteps : ℕ
  deriving DecidableEq

/-- Epilogue shared by all three epoch functions: the
`if count_iters <= total_iters:` print block.  Inside it, `acc_train` and
`loss_epoch` are divided by `tot_samples`; with `tot_samples = 0` this raises
`ZeroDivisionError`.  The function returns the final `count_iters` together
with the emitted log line, if any. -/
def epochEpilogue (total : ℕ) (st : LoopSt) : PyResult (ℕ × Option LogRec) :=
  if st.count ≤ total then
    if st.totSamples = 0 then PyResult.zeroDivisionError
    else
      PyResult.ok (st.count,
        some ⟨st.accSum / (st.totSamples : ℚ), st.lossSum / (st.totSamples : ℚ), st.schedSteps⟩)
  else PyResult.ok (st.count, none)

/-- The single-stage `train_epoch` of src/fs/ln_only.py, as a function of the
iteration budget, the batches the loader yields this pass, and the incoming
iteration counter. -/
def lnTrainEpoch (total : ℕ) (bs : List Batch) (c : ℕ) : PyResult (ℕ × Option LogRec) :=
  epochEpilogue total (lnLoop total bs (initSt c))

/-- The two-stage `train_epoch` of src/fs/twostage.py (lines 192-247). -/
def twostageTrainEpoch (total : ℕ) (bs : List Batch) (c : ℕ) : PyResult (ℕ × Option LogRec) :=
  epochEpilogue total (tsLoop total bs (initSt c))

/-- The `train_epoch_second_stage` of src/fs/twostage.py (lines 145-188); its
counter, scheduler, accumulator and logging bookkeeping coincides with the
two-stage `train_epoch`. -/
def trainEpochSecondStage (total : ℕ) (bs : List Batch) (c : ℕ) : PyResult (ℕ × Option LogRec) :=
  epochEpilogue total (tsLoop total bs (initSt c))

/-- Number of batches of a pass on which the scaler-skip test is false, i.e.
batches where the two-stage loops advance the scheduler and the counter. -/
def nonSkipped : List Batch → ℕ
  | [] => 0
  | b :: bs => (if skipLrSched b.preScale b.postScale then 0 else 1) + nonSkipped bs

/-- Python `int()` applied to a rational value: truncation toward zero. -/
def pyInt (q : ℚ) : ℤ :=
  if 0 ≤ q then ⌊q⌋ else -⌊-q⌋

/-- The `while count_iters < budget:` driver loop of the run functions: each
while-iteration calls the given epoch function on the next pass the train
loader yields, then breaks if the debug flag is set.  The list of passes
bounds how long the loader can be observed; an uncaught `ZeroDivisionError`
from an epoch call propagates. -/
def trainingLoop (epoch : ℕ → List Batch → ℕ → PyResult (ℕ × Option LogRec))
    (budget : ℕ) (debug : Bool) : List (List Batch) → ℕ → PyResult ℕ
  | [], c => PyResult.ok c
  | bs :: rest, c =>
    if c < budget then
      match epoch budget bs c with
      | PyResult.zeroDivisionError => PyResult.zeroDivisionError
      | PyResult.ok (cNew, _) =>
        if debug then PyResult.ok cNew else trainingLoop epoch budget debug rest cNew
    else PyResult.ok c

/-- Counters computed by `run_twostage` (src/fs/twostage.py lines 251-310):
the full budget `total_iters`, the stage-1 sub-budget `cosine_iters`, the
counter at the end of stage 1, the stage-2 scheduler horizon
`second_stage_iters`, and the counter at the end of stage 2. -/
structure TwoStageRec where
  totalIters : ℕ
  cosineIters : ℕ
  stage1Count : ℕ
  secondStageIters : ℤ
  finalCount : ℕ
  deriving DecidableEq

/-- Iteration bookkeeping of `run_twostage` (src/fs/twostage.py):
`total_iters = args.n_iters * args.shots`,
`cosine_iters = int(total_iters * args.n_iters_frac)`, stage 1 drives the
two-stage `train_epoch` with budget `cosine_iters` starting from 0, stage 2
builds its scheduler over `second_stage_iters = total_iters - count_iters`
and drives `train_epoch_second_stage` with budget `total_iters`.
`passes1`/`passes2` are the successive passes the train loader yields during
the two stages. -/
def runTwoStage (nIters shots : ℕ) (frac : ℚ) (debug : Bool)
    (passes1 passes2 : List (List Batch)) : PyResult TwoStageRec :=
  let totalIters := nIters * shots
  let cosineIters := (pyInt ((totalIters : ℚ) * frac)).toNat
  match trainingLoop twostageTrainEpoch cosineIters debug passes1 0 with
  | PyResult.zeroDivisionError => PyResult.zeroDivisionError
  | PyResult.ok c1 =>
    match trainingLoop trainEpochSecondStage totalIters debug passes2 c1 with
    | PyResult.zeroDivisionError => PyResult.zeroDivisionError
    | PyResult.ok c2 =>
      PyResult.ok ⟨totalIters, cosineIters, c1, (totalIters : ℤ) - (c1 : ℤ), c2⟩

/-- Embedding vectors of dimension `d`; the reals stand in for the float
tensor entries. -/
abbrev Vec (d : ℕ) : Type := Fin d → ℝ

/-- Row L2 norm `x.norm(dim=-1)`. -/
noncomputable def l2norm {d : ℕ} (v : Vec d) : ℝ :=
  Real.sqrt (∑ i, v i ^ 2)

/-- Row L2 normalization `x / x.norm(dim=-1, keepdim=True)`. -/
noncomputable def normalizeV {d : ℕ} (v : Vec d) : Vec d :=
  fun i => v i / l2norm v

/-- Scalar product of two embedding vectors. -/
noncomputable def dotV {d : ℕ} (u v : Vec d) : ℝ := ∑ i, u i * v i

/-- Temperature-scaled cosine-similarity logits
`logit_scale.exp() * x @ classifier.t()` of one feature vector against the
rows of a classifier matrix. -/
noncomputable def logitsAgainst {d : ℕ} (logitScale : ℝ) (x : Vec d)
    (classifier : List (Vec d)) : List ℝ :=
  classifier.map (fun w => Real.exp logitScale * dotV x w)

/-- Instance state of `SingleStreamClassifier` (src/fs/twostage.py lines
39-65): the ordered class-name list from which `cat2id` is built, the trained
classifier matrix (one row per class name), the learned temperature
`logit_scale`, and the lazily created `inference_classifier` attribute
(`none` models the attribute being absent). -/
structure SSC (d : ℕ) where
  classnames : List String
  classifier : List (Vec d)
  logitScale : ℝ
  inferenceClassifier : Option (List (Vec d))

/-- The `cat2id = {cat: i for i, cat in enumerate(classnames)}` dictionary:
the index stored for a name is the last position at which it occurs. -/
def cat2idLookup (classnames : List String) (c : String) : Option ℕ :=
  classnames.enum.foldl (fun acc p => if p.2 = c then some p.1 else acc) none

/-- Row selection of `SingleStreamClassifier.infer` (src/fs/twostage.py lines
88-102): a category present in `cat2id` takes its row from the trained
classifier matrix (`cat2known`); a missing category is embedded through the
frozen text encoder (`enc`, the composition of tokenization and `encode_text`
under the inference template, an external collaborator). -/
def inferRawRow {d : ℕ} (enc : String → Vec d) (s : SSC d) (c : String) : Vec d :=
  match cat2idLookup s.classnames c with
  | some i => s.classifier.getD i (fun _ => 0)
  | none => enc c

/-- The inference classifier assembled by `SingleStreamClassifier.infer`: the
selected rows stacked in the order of `categories`, then row-normalized. -/
noncomputable def buildInferClassifier {d : ℕ} (enc : String → Vec d) (s : SSC d)
    (categories : List String) : List (Vec d) :=
  (categories.map (inferRawRow enc s)).map normalizeV

/-- `SingleStreamClassifier.infer` (src/fs/twostage.py lines 79-113): reuse
the cached classifier when `compute_classifier_once` is set and the cache
attribute exists; otherwise assemble the classifier, store it in the cache,
and use it.  Returns the logits of each image of the batch, the updated
instance state, and whether a classifier was assembled during this call. -/
noncomputable def SSC.infer {d : ℕ} {ι : Type} (enc : String → Vec d) (backbone : ι → Vec d)
    (s : SSC d) (xs : List ι) (categories : List String) (computeClassifierOnce : Bool) :
    List (List ℝ) × SSC d × Bool :=
  match (if computeClassifierOnce then s.inferenceClassifier else none) with
  | some classifier =>
    (xs.map (fun im => logitsAgainst s.logitScale (normalizeV (backbone im)) classifier),
      s, false)
  | none =>
    let classifier := buildInferClassifier enc s categories
    (xs.map (fun im => logitsAgainst s.logitScale (normalizeV (backbone im)) classifier),
      { s with inferenceClassifier := some classifier }, true)

/-- `SingleStreamClassifier.forward` (src/fs/twostage.py lines 68-76): the
backbone features are L2-normalized, the classifier matrix is re-normalized
row-wise, and the temperature-scaled cosine similarities are returned. -/
noncomputable def SSC.forward {d : ℕ} {ι : Type} (backbone : ι → Vec d) (s : SSC d)
    (x : ι) : List ℝ :=
  logitsAgainst s.logitScale (normalizeV (backbone x)) (s.classifier.map normalizeV)

/-- `SingleStreamClassifier._init_classifier` (src/fs/twostage.py lines
59-65): the class-name prompts are embedded through the text encoder and the
rows are L2-normalized before being wrapped as the trainable parameter. -/
noncomputable def initClassifier {d : ℕ} (enc : String → Vec d) (classnames : List String) :
    List (Vec d) :=
  (classnames.map enc).map normalizeV

/-- Batch loop of `evaluate_selective_inference` (src/fs/twostage.py lines
130-139): each batch is classified by `model.infer` with the default
`compute_classifier_once=True`, and the running accuracy is accumulated
weighted by `len(logits)`.  The loop additionally counts how many classifier
constructions the `infer` calls performed.  `clsAcc` is the external
`cls_acc` collaborator. -/
noncomputable def evalSILoop {d : ℕ} {ι : Type} (enc : String → Vec d) (backbone : ι → Vec d)
    (clsAcc : List (List ℝ) → List ℕ → ℝ) (classnames : List String) :
    List (List ι × List ℕ) → SSC d → ℝ → ℕ → ℕ → SSC d × ℝ × ℕ × ℕ
  | [], s, acc, tot, builds => (s, acc, tot, builds)
  | (images, target) :: rest, s, acc, tot, builds =>
    let r := SSC.infer enc backbone s images classnames true
    evalSILoop enc backbone clsAcc classnames rest r.2.1
      (acc + clsAcc r.1 target * (images.length : ℝ))
      (tot + images.length)
      (builds + if r.2.2 then 1 else 0)

/-- `evaluate_selective_inference` (src/fs/twostage.py lines 116-142): any
existing `inference_classifier` attribute is removed from the model first;
then the batch loop runs and the accumulated accuracy is divided by
`tot_samples`, raising `ZeroDivisionError` when no samples were seen. -/
noncomputable def evaluateSelectiveInference {d : ℕ} {ι : Type} (enc : String → Vec d)
    (backbone : ι → Vec d) (clsAcc : List (List ℝ) → List ℕ → ℝ) (classnames : List String)
    (s : SSC d) (loader : List (List ι × List ℕ)) : PyResult ℝ :=
  let r := evalSILoop enc backbone clsAcc classnames loader
    { s with inferenceClassifier := none } 0 0 0
  if r.2.2.1 = 0 then PyResult.zeroDivisionError
  else PyResult.ok (r.2.1 / (r.2.2.1 : ℝ))

theorem lnLoop_count_eq (total : ℕ) (bs : List Batch) :
    ∀ st : LoopSt, st.count < total →
      (lnLoop total bs st).count = min total (st.count + bs.length) := by
  induction bs with
  | nil => intro st h; simp only [lnLoop, List.length_nil]; omega
  | cons b bs ih =>
    intro st h
    simp only [lnLoop]
    by_cases hc : (lnStep b st).count = total
    · simp only [if_pos hc, List.length_cons]
      simp only [lnStep] at hc ⊢
      omega
    · simp only [if_neg hc]
      have h1 : (lnStep b st).count < total := by
        simp only [lnStep] at hc ⊢; omega
      rw [ih _ h1]
      simp only [lnStep, List.length_cons]
      omega

theorem tsLoop_count_eq (total : ℕ) (bs : List Batch) :
    ∀ st : LoopSt, st.count < total →
      (tsLoop total bs st).count = min total (st.count + nonSkipped bs) := by
  induction bs with
  | nil => intro st h; simp only [tsLoop, nonSkipped]; omega
  | cons b bs ih =>
    intro st h
    simp only [tsLoop]
    by_cases hs : skipLrSched b.preScale b.postScale
    · have hc : (tsStep b st).count = st.count := by simp [tsStep, hs]
      have hne : ¬ (tsStep b st).count = total := by omega
      simp only [if_neg hne]
      rw [ih _ (by omega)]
      simp only [nonSkipped, if_pos hs, hc]
      omega
    · have hc : (tsStep b st).count = st.count + 1 := by simp [tsStep, hs]
      by_cases hb : (tsStep b st).count = total
      · simp only [if_pos hb, nonSkipped, if_neg hs]
        omega
      · simp only [if_neg hb]
        rw [ih _ (by omega)]
        simp only [nonSkipped, if_neg hs, hc]
        omega

theorem lnLoop_append_of_reached (total : ℕ) (bs rest : List Batch) :
    ∀ st : LoopSt, st.count < total → (lnLoop total bs st).count = total →
      lnLoop total (bs ++ rest) st = lnLoop total bs st := by
  induction bs with
  | nil =>
    intro st h1 h2
    simp only [lnLoop] at h2
    omega
  | cons b bs ih =>
    intro st h1 h2
    simp only [List.cons_append, lnLoop] at h2 ⊢
    by_cases hc : (lnStep b st).count = total
    · simp only [if_pos hc]
    · simp only [if_neg hc] at h2 ⊢
      have hstep : (lnStep b st).count = st.count + 1 := by simp [lnStep]
      exact ih _ (by omega) h2

theorem tsLoop_append_of_reached (total : ℕ) (bs rest : List Batch) :
    ∀ st : LoopSt, st.count < total → (tsLoop total bs st).count = total →
      tsLoop total (bs ++ rest) st = tsLoop total bs st := by
  induction bs with
  | nil =>
    intro st h1 h2
    simp only [tsLoop] at h2
    omega
  | cons b bs ih =>
    intro st h1 h2
    simp only [List.cons_append, tsLoop] at h2 ⊢
    by_cases hc : (tsStep b st).count = total
    · simp only [if_pos hc]
    · simp only [if_neg hc] at h2 ⊢
      have hstep : st.count ≤ (tsStep b st).count ∧ (tsStep b st).count ≤ st.count + 1 := by
        simp only [tsStep]
        split <;> omega
      exact ih _ (by omega) h2

theorem epochEpilogue_ok_count {total : ℕ} {st : LoopSt} {r : ℕ} {lg : Option LogRec}
    (h : epochEpilogue total st = PyResult.ok (r, lg)) : r = st.count := by
  unfold epochEpilogue at h
  split at h
  · split at h
    · exact PyResult.noConfusion h
    · simp only [PyResult.ok.injEq, Prod.mk.injEq] at h
      exact h.1.symm
  · simp only [PyResult.ok.injEq, Prod.mk.injEq] at h
    exact h.1.symm

/-- C1: for every trainer epoch call (single-stage `train_epoch`, two-stage
`train_epoch`, and `train_epoch_second_stage`), given an incoming iteration
counter strictly below the total-iterations budget, the returned counter never
exceeds the budget, and the batch loop breaks immediately in the batch where
the counter reaches the budget: the result of a pass is unchanged by any
further batches remaining in the loader. -/
theorem C1_iter_budget (total : ℕ) (bs rest : List Batch) (c : ℕ) (h : c < total) :
    (lnLoop total bs (initSt c)).count ≤ total ∧
    (tsLoop total bs (initSt c)).count ≤ total ∧
    ((lnLoop total bs (initSt c)).count = total →
      lnLoop total (bs ++ rest) (initSt c) = lnLoop total bs (initSt c)) ∧
    ((tsLoop total bs (initSt c)).count = total →
      tsLoop total (bs ++ rest) (initSt c) = tsLoop total bs (initSt c)) ∧
    (∀ r lg, lnTrainEpoch total bs c = PyResult.ok (r, lg) → r ≤ total) ∧
    (∀ r lg, twostageTrainEpoch total bs c = PyResult.ok (r, lg) → r ≤ total) ∧
    (∀ r lg, trainEpochSecondStage total bs c = PyResult.ok (r, lg) → r ≤ total) := by
  have hc : (initSt c).count < total := h
  have hln := lnLoop_count_eq total bs (initSt c) hc
  have hts := tsLoop_count_eq total bs (initSt c) hc
  refine ⟨by omega, by omega, lnLoop_append_of_reached total bs rest _ hc,
    tsLoop_append_of_reached total bs rest _ hc, ?_, ?_, ?_⟩
  · intro r lg hr
    rw [epochEpilogue_ok_count hr]
    omega
  · intro r lg hr
    rw [epochEpilogue_ok_count hr]
    omega
  · intro r lg hr
    rw [epochEpilogue_ok_count hr]
    omega

/-- Witness for C1 at a concrete input: budget 2, incoming counter 0, a pass
of two unit batches followed by one remaining batch; the pass reaches the
budget at the second batch and the remaining batch is not processed. -/
theorem C1_iter_budget_witness :
    0 < 2 ∧
    lnLoop 2 ([⟨1, 0, 0, 1, 1⟩, ⟨1, 0, 0, 1, 1⟩] ++ [⟨1, 0, 0, 1, 1⟩]) (initSt 0) =
      lnLoop 2 [⟨1, 0, 0, 1, 1⟩, ⟨1, 0, 0, 1, 1⟩] (initSt 0) :=
  ⟨by norm_num,
    (C1_iter_budget 2 [⟨1, 0, 0, 1, 1⟩, ⟨1, 0, 0, 1, 1⟩] [⟨1, 0, 0, 1, 1⟩] 0
      (by norm_num)).2.2.1
      (by norm_num [lnLoop, lnStep, initSt])⟩

theorem tsStep_skip {b : Batch} {st : LoopSt} (h : skipLrSched b.preScale b.postScale) :
    (tsStep b st).count = st.count ∧ (tsStep b st).schedSteps = st.schedSteps := by
  simp [tsStep, h]

theorem tsStep_noskip {b : Batch} {st : LoopSt} (h : ¬ skipLrSched b.preScale b.postScale) :
    (tsStep b st).count = st.count + 1 ∧ (tsStep b st).schedSteps = st.schedSteps + 1 := by
  simp [tsStep, h]

theorem initSt_count (c : ℕ) : (initSt c).count = c := rfl

theorem initSt_schedSteps (c : ℕ) : (initSt c).schedSteps = 0 := rfl

theorem nonSkipped_le_length (bs : List Batch) : nonSkipped bs ≤ bs.length := by
  induction bs with
  | nil => simp [nonSkipped]
  | cons b bs ih =>
    simp only [nonSkipped, List.length_cons]
    split <;> omega

theorem nonSkipped_lt_length {bs : List Batch}
    (h : ∃ b ∈ bs, skipLrSched b.preScale b.postScale) : nonSkipped bs < bs.length := by
  induction bs with
  | nil => simp at h
  | cons b bs ih =>
    simp only [nonSkipped, List.length_cons]
    by_cases hb : skipLrSched b.preScale b.postScale
    · have := nonSkipped_le_length bs
      simp only [if_pos hb]
      omega
    · rcases h with ⟨b', hb', hs⟩
      rcases List.mem_cons.mp hb' with rfl | hmem
      · exact absurd hs hb
      · have := ih ⟨b', hmem, hs⟩
        simp only [if_neg hb]
        omega

theorem lnLoop_full (total : ℕ) (bs : List Batch) :
    ∀ st : LoopSt, st.count + bs.length < total →
      (lnLoop total bs st).count = st.count + bs.length ∧
      (lnLoop total bs st).schedSteps = st.schedSteps + bs.length := by
  induction bs with
  | nil => intro st h; simp [lnLoop]
  | cons b bs ih =>
    intro st h
    simp only [List.length_cons] at h
    simp only [lnLoop, List.length_cons]
    have hc : ¬ (lnStep b st).count = total := by
      simp only [lnStep]; omega
    simp only [if_neg hc]
    have := ih (lnStep b st) (by simp only [lnStep]; omega)
    simp only [lnStep] at this ⊢
    omega

theorem tsLoop_full (total : ℕ) (bs : List Batch) :
    ∀ st : LoopSt, st.count + bs.length < total →
      (tsLoop total bs st).count = st.count + nonSkipped bs ∧
      (tsLoop total bs st).schedSteps = st.schedSteps + nonSkipped bs := by
  induction bs with
  | nil => intro st h; simp [tsLoop, nonSkipped]
  | cons b bs ih =>
    intro st h
    simp only [List.length_cons] at h
    simp only [tsLoop]
    have hstep : st.count ≤ (tsStep b st).count ∧ (tsStep b st).count ≤ st.count + 1 := by
      simp only [tsStep]; split <;> omega
    have hc : ¬ (tsStep b st).count = total := by omega
    simp only [if_neg hc]
    have := ih (tsStep b st) (by omega)
    by_cases hb : skipLrSched b.preScale b.postScale
    · have hs := @tsStep_skip b st hb
      simp only [nonSkipped, if_pos hb]
      omega
    · have hs := @tsStep_noskip b st hb
      simp only [nonSkipped, if_neg hb]
      omega

/-- C2 counterexample: with budget 1 and a pass whose first batch was
scaler-skipped, both epoch functions return the same counter value 1, so the
claim that on every run with at least one skipped step the two epoch
functions return different counter values fails as stated. -/
theorem C2_counterexample :
    skipLrSched (4 : ℚ) 2 ∧
    lnTrainEpoch 1 [⟨1, 0, 0, 4, 2⟩, ⟨1, 0, 0, 2, 2⟩] 0 =
      PyResult.ok (1, some ⟨0, 0, 1⟩) ∧
    twostageTrainEpoch 1 [⟨1, 0, 0, 4, 2⟩, ⟨1, 0, 0, 2, 2⟩] 0 =
      PyResult.ok (1, some ⟨0, 0, 1⟩) := by
  refine ⟨by norm_num [skipLrSched], ?_, ?_⟩
  · norm_num [lnTrainEpoch, lnLoop, lnStep, epochEpilogue, initSt]
  · norm_num [twostageTrainEpoch, tsLoop, tsStep, epochEpilogue, initSt, skipLrSched]

/-- C2 (amended): the single-stage epoch loop increments the counter and the
scheduler unconditionally once per batch, while the two-stage epoch loop
advances both only on batches the scaler did not skip; consequently, on a
pass that contains at least one skipped step and during which neither loop
reaches the budget, the two loops return different counters (the single-stage
one strictly larger). -/
theorem C2_increment_policy (total : ℕ) (bs : List Batch) (c : ℕ)
    (h1 : c + bs.length < total)
    (h2 : ∃ b ∈ bs, skipLrSched b.preScale b.postScale) :
    (lnLoop total bs (initSt c)).count = c + bs.length ∧
    (lnLoop total bs (initSt c)).schedSteps = bs.length ∧
    (tsLoop total bs (initSt c)).count = c + nonSkipped bs ∧
    (tsLoop total bs (initSt c)).schedSteps = nonSkipped bs ∧
    (tsLoop total bs (initSt c)).count < (lnLoop total bs (initSt c)).count := by
  have hln := lnLoop_full total bs (initSt c) h1
  have hts := tsLoop_full total bs (initSt c) h1
  have hlt := nonSkipped_lt_length h2
  simp only [initSt_count, initSt_schedSteps] at hln hts
  exact ⟨hln.1, by omega, hts.1, by omega, by omega⟩

/-- Witness for C2 at a concrete input: budget 5, a pass of one skipped and
one non-skipped batch; the single-stage loop returns 2, the two-stage loop
returns 1. -/
theorem C2_increment_policy_witness :
    (0 + 2 < 5 ∧ skipLrSched (4 : ℚ) 2) ∧
    (tsLoop 5 [⟨1, 0, 0, 4, 2⟩, ⟨1, 0, 0, 2, 2⟩] (initSt 0)).count <
      (lnLoop 5 [⟨1, 0, 0, 4, 2⟩, ⟨1, 0, 0, 2, 2⟩] (initSt 0)).count :=
  ⟨⟨by norm_num, by norm_num [skipLrSched]⟩,
    (C2_increment_policy 5 [⟨1, 0, 0, 4, 2⟩, ⟨1, 0, 0, 2, 2⟩] 0 (by norm_num)
      ⟨⟨1, 0, 0, 4, 2⟩, by simp, by norm_num [skipLrSched]⟩).2.2.2.2⟩

/-- C3 counterexample: with pre-update scale 2 and post-update scale 4 the
post-step scale exceeds the pre-step scale, which the claim says signals a
skipped step; but the code's `skip_lr_sched` test is false there, and the
two-stage batch body advances both the scheduler and the counter. -/
theorem C3_counterexample :
    (2 : ℚ) < 4 ∧ ¬ skipLrSched 2 4 ∧
    (tsStep ⟨1, 0, 0, 2, 4⟩ (initSt 0)).count = 1 ∧
    (tsStep ⟨1, 0, 0, 2, 4⟩ (initSt 0)).schedSteps = 1 := by
  refine ⟨by norm_num, by norm_num [skipLrSched], ?_, ?_⟩ <;>
    norm_num [tsStep, skipLrSched, initSt]

/-- C3 (amended): the step is considered skipped exactly when the pre-update
scale exceeds the post-update scale (the scaler lowers its scale on
overflow), and only when the step was not skipped are the scheduler advanced
and the counter incremented. -/
theorem C3_skip_gating (b : Batch) (st : LoopSt) :
    (skipLrSched b.preScale b.postScale ↔ b.postScale < b.preScale) ∧
    (skipLrSched b.preScale b.postScale →
      (tsStep b st).count = st.count ∧ (tsStep b st).schedSteps = st.schedSteps) ∧
    (¬ skipLrSched b.preScale b.postScale →
      (tsStep b st).count = st.count + 1 ∧ (tsStep b st).schedSteps = st.schedSteps + 1) :=
  ⟨Iff.rfl, fun h => tsStep_skip h, fun h => tsStep_noskip h⟩

/-- Witness for C3 at a concrete input: a batch whose scale dropped from 4 to
2 is detected as skipped and leaves the counter untouched. -/
theorem C3_skip_gating_witness :
    skipLrSched (4 : ℚ) 2 ∧ (tsStep ⟨1, 0, 0, 4, 2⟩ (initSt 0)).count = 0 :=
  ⟨by norm_num [skipLrSched],
    ((C3_skip_gating ⟨1, 0, 0, 4, 2⟩ (initSt 0)).2.1 (by norm_num [skipLrSched])).1⟩

theorem epochEpilogue_ok_isSome {total : ℕ} {st : LoopSt} {r : ℕ} {lg : Option LogRec}
    (hle : st.count ≤ total) (h : epochEpilogue total st = PyResult.ok (r, lg)) :
    lg.isSome := by
  unfold epochEpilogue at h
  rw [if_pos hle] at h
  split at h
  · exact PyResult.noConfusion h
  · simp only [PyResult.ok.injEq, Prod.mk.injEq] at h
    rw [← h.2]
    rfl

/-- C6 counterexample: with budget 1 and a two-batch pass, the loop breaks at
the first batch because the counter reached the budget (one batch remains in
the loader), yet the epoch call still emits the per-epoch log line, because
the guard `count_iters <= total_iters` also holds when the budget was just
reached. -/
theorem C6_counterexample :
    (lnLoop 1 [⟨1, 1, 2, 1, 1⟩, ⟨1, 0, 0, 1, 1⟩] (initSt 0)).count = 1 ∧
    lnTrainEpoch 1 [⟨1, 1, 2, 1, 1⟩, ⟨1, 0, 0, 1, 1⟩] 0 =
      PyResult.ok (1, some ⟨1, 2, 1⟩) := by
  constructor
  · norm_num [lnLoop, lnStep, initSt]
  · norm_num [lnTrainEpoch, lnLoop, lnStep, epochEpilogue, initSt]

/-- C6 (amended): for every trainer epoch call entered with the counter
strictly below the budget, the per-epoch log line is emitted whenever the
call returns normally — including passes terminated because the counter
reached the budget — since the guard `count_iters <= total_iters` always
holds at the end of such a pass; only the `ZeroDivisionError` crash on an
empty pass prevents the log line. -/
theorem C6_epoch_log (total : ℕ) (bs : List Batch) (c : ℕ) (h : c < total) :
    (∀ r lg, lnTrainEpoch total bs c = PyResult.ok (r, lg) → lg.isSome) ∧
    (∀ r lg, twostageTrainEpoch total bs c = PyResult.ok (r, lg) → lg.isSome) ∧
    (∀ r lg, trainEpochSecondStage total bs c = PyResult.ok (r, lg) → lg.isSome) := by
  have hc : (initSt c).count < total := h
  have hln := lnLoop_count_eq total bs (initSt c) hc
  have hts := tsLoop_count_eq total bs (initSt c) hc
  exact ⟨fun r lg hr => epochEpilogue_ok_isSome (by omega) hr,
    fun r lg hr => epochEpilogue_ok_isSome (by omega) hr,
    fun r lg hr => epochEpilogue_ok_isSome (by omega) hr⟩

/-- Witness for C6 at a concrete input: the epoch call with budget 1 on a
two-batch pass returns normally and its log line is present. -/
theorem C6_epoch_log_witness :
    0 < 1 ∧ (some (⟨1, 2, 1⟩ : LogRec)).isSome :=
  ⟨by norm_num,
    (C6_epoch_log 1 [⟨1, 1, 2, 1, 1⟩, ⟨1, 0, 0, 1, 1⟩] 0 (by norm_num)).1 1
      (some ⟨1, 2, 1⟩)
      (by norm_num [lnTrainEpoch, lnLoop, lnStep, epochEpilogue, initSt])⟩

/-- C8 counterexample: on a loader that yields zero batches, every averaging
site performs the division by the zero sample count and raises
`ZeroDivisionError`; no guarded "empty dataset" condition exists in the
code. -/
theorem C8_counterexample :
    lnTrainEpoch 5 [] 0 = PyResult.zeroDivisionError ∧
    twostageTrainEpoch 5 [] 0 = PyResult.zeroDivisionError ∧
    trainEpochSecondStage 5 [] 0 = PyResult.zeroDivisionError ∧
    evaluateSelectiveInference (fun _ => (fun _ => 0 : Vec 1))
      (fun _ : Unit => (fun _ => 0 : Vec 1)) (fun _ _ => 0) []
      ⟨[], [], 0, none⟩ [] = PyResult.zeroDivisionError := by
  refine ⟨?_, ?_, ?_, rfl⟩
  · norm_num [lnTrainEpoch, lnLoop, epochEpilogue, initSt]
  · norm_num [twostageTrainEpoch, tsLoop, epochEpilogue, initSt]
  · norm_num [trainEpochSecondStage, tsLoop, epochEpilogue, initSt]

/-- C8 (amended): the accuracy/loss averaging divisions are not guarded: for
every trainer epoch entered with the counter at most the budget and for every
evaluator call, a loader yielding zero batches makes the site divide by the
zero sample count, which raises `ZeroDivisionError` instead of surfacing a
guarded "empty dataset" condition. -/
theorem C8_unguarded_empty_loader (total c : ℕ) (h : c ≤ total) {d : ℕ} {ι : Type}
    (enc : String → Vec d) (backbone : ι → Vec d)
    (clsAcc : List (List ℝ) → List ℕ → ℝ) (classnames : List String) (s : SSC d) :
    lnTrainEpoch total [] c = PyResult.zeroDivisionError ∧
    twostageTrainEpoch total [] c = PyResult.zeroDivisionError ∧
    trainEpochSecondStage total [] c = PyResult.zeroDivisionError ∧
    evaluateSelectiveInference enc backbone clsAcc classnames s [] =
      PyResult.zeroDivisionError := by
  refine ⟨?_, ?_, ?_, rfl⟩ <;>
    simp [lnTrainEpoch, twostageTrainEpoch, trainEpochSecondStage, lnLoop, tsLoop,
      epochEpilogue, initSt, h]

/-- Witness for C8 at a concrete input: budget 5, incoming counter 0, empty
loader. -/
theorem C8_unguarded_empty_loader_witness :
    0 ≤ 5 ∧ lnTrainEpoch 5 [] 0 = PyResult.zeroDivisionError :=
  ⟨by norm_num,
    (C8_unguarded_empty_loader 5 0 (by norm_num) (fun _ => (fun _ => 0 : Vec 1))
      (fun _ : Unit => (fun _ => 0 : Vec 1)) (fun _ _ => 0) [] ⟨[], [], 0, none⟩).1⟩

theorem tsEpoch_ok_le {total c r : ℕ} {bs : List Batch} {lg : Option LogRec}
    (h : c < total)
    (hr : epochEpilogue total (tsLoop total bs (initSt c)) = PyResult.ok (r, lg)) :
    r ≤ total := by
  have := tsLoop_count_eq total bs (initSt c) h
  rw [epochEpilogue_ok_count hr]
  omega

theorem trainingLoop_ok_le (epoch : ℕ → List Batch → ℕ → PyResult (ℕ × Option LogRec))
    (hep : ∀ total bs c r lg, c < total → epoch total bs c = PyResult.ok (r, lg) → r ≤ total)
    (budget : ℕ) (debug : Bool) :
    ∀ (passes : List (List Batch)) (c c' : ℕ), c ≤ budget →
      trainingLoop epoch budget debug passes c = PyResult.ok c' → c' ≤ budget := by
  intro passes
  induction passes with
  | nil =>
    intro c c' hc h
    simp only [trainingLoop, PyResult.ok.injEq] at h
    omega
  | cons bs rest ih =>
    intro c c' hc h
    simp only [trainingLoop] at h
    by_cases hcb : c < budget
    · rw [if_pos hcb] at h
      cases hep2 : epoch budget bs c with
      | zeroDivisionError =>
        rw [hep2] at h
        exact PyResult.noConfusion h
      | ok p =>
        obtain ⟨cNew, lg⟩ := p
        rw [hep2] at h
        have hle : cNew ≤ budget := hep budget bs c cNew lg hcb hep2
        cases hdbg : debug with
        | true =>
          simp only [hdbg, if_true] at h
          simp only [PyResult.ok.injEq] at h
          omega
        | false =>
          simp only [hdbg, Bool.false_eq_true, if_false] at h
          rw [hdbg] at ih
          exact ih cNew c' hle h
    · rw [if_neg hcb] at h
      simp only [PyResult.ok.injEq] at h
      omega

theorem trainingLoop_stop (epoch : ℕ → List Batch → ℕ → PyResult (ℕ × Option LogRec))
    (budget : ℕ) (debug : Bool) (passes : List (List Batch)) (c : ℕ) (h : budget ≤ c) :
    trainingLoop epoch budget debug passes c = PyResult.ok c := by
  cases passes with
  | nil => rfl
  | cons bs rest => simp only [trainingLoop, if_neg (by omega : ¬ c < budget)]

theorem pyInt_of_nonneg {q : ℚ} (h : 0 ≤ q) : pyInt q = ⌊q⌋ := by
  simp [pyInt, h]

/-- C7: in `run_twostage`, with the stage-1 fraction a genuine fraction,
the stage-1 sub-budget `cosine_iters` is `total_iters * n_iters_frac` rounded
down where `total_iters = n_iters * shots`; the stage-1 counter never exceeds
the sub-budget and the stage-1 loop is a no-op once the counter is at or
above it; stage 2 runs against the full budget `total_iters` (never exceeding
it, its loop a no-op once the counter reaches it) with its scheduler horizon
`second_stage_iters` equal to `total_iters` minus the iterations consumed by
stage 1. -/
theorem C7_twostage_budgets (nIters shots : ℕ) (frac : ℚ) (hfrac0 : 0 ≤ frac)
    (hfrac1 : frac ≤ 1) (passes1 passes2 : List (List Batch)) (rec : TwoStageRec)
    (hrun : runTwoStage nIters shots frac false passes1 passes2 = PyResult.ok rec) :
    rec.totalIters = nIters * shots ∧
    (rec.cosineIters : ℤ) = ⌊((nIters * shots : ℕ) : ℚ) * frac⌋ ∧
    rec.cosineIters ≤ rec.totalIters ∧
    rec.stage1Count ≤ rec.cosineIters ∧
    rec.secondStageIters = (rec.totalIters : ℤ) - (rec.stage1Count : ℤ) ∧
    rec.finalCount ≤ rec.totalIters ∧
    (∀ c, rec.cosineIters ≤ c →
      trainingLoop twostageTrainEpoch rec.cosineIters false passes1 c = PyResult.ok c) ∧
    (∀ c, rec.totalIters ≤ c →
      trainingLoop trainEpochSecondStage rec.totalIters false passes2 c = PyResult.ok c) := by
  have hq0 : 0 ≤ ((nIters * shots : ℕ) : ℚ) * frac :=
    mul_nonneg (Nat.cast_nonneg _) hfrac0
  have hfl0 : 0 ≤ ⌊((nIters * shots : ℕ) : ℚ) * frac⌋ := Int.floor_nonneg.mpr hq0
  have hqle : ((nIters * shots : ℕ) : ℚ) * frac ≤ ((nIters * shots : ℕ) : ℚ) := by
    calc ((nIters * shots : ℕ) : ℚ) * frac ≤ ((nIters * shots : ℕ) : ℚ) * 1 :=
          mul_le_mul_of_nonneg_left hfrac1 (Nat.cast_nonneg _)
      _ = ((nIters * shots : ℕ) : ℚ) := mul_one _
  have hflle : ⌊((nIters * shots : ℕ) : ℚ) * frac⌋ ≤ (nIters * shots : ℤ) := by
    have := Int.floor_le_floor hqle
    rwa [Int.floor_natCast] at this
  have hCI : ((pyInt (((nIters * shots : ℕ) : ℚ) * frac)).toNat : ℤ) =
      ⌊((nIters * shots : ℕ) : ℚ) * frac⌋ := by
    rw [pyInt_of_nonneg hq0, Int.toNat_of_nonneg hfl0]
  have hCIle : (pyInt (((nIters * shots : ℕ) : ℚ) * frac)).toNat ≤ nIters * shots := by
    have hz : (((pyInt (((nIters * shots : ℕ) : ℚ) * frac)).toNat : ℤ)) ≤
        ((nIters * shots : ℕ) : ℤ) := by
      rw [hCI]; exact_mod_cast hflle
    exact_mod_cast hz
  simp only [runTwoStage] at hrun
  split at hrun
  · exact PyResult.noConfusion hrun
  · rename_i c1 h1
    split at hrun
    · exact PyResult.noConfusion hrun
    · rename_i c2 h2
      simp only [PyResult.ok.injEq] at hrun
      subst hrun
      have hc1 : c1 ≤ (pyInt (((nIters * shots : ℕ) : ℚ) * frac)).toNat :=
        trainingLoop_ok_le twostageTrainEpoch
          (fun total bs c r lg hlt hok => tsEpoch_ok_le hlt hok) _ false passes1 0 c1
          (Nat.zero_le _) h1
      have hc2 : c2 ≤ nIters * shots :=
        trainingLoop_ok_le trainEpochSecondStage
          (fun total bs c r lg hlt hok => tsEpoch_ok_le hlt hok) _ false passes2 c1 c2
          (le_trans hc1 hCIle) h2
      exact ⟨rfl, hCI, hCIle, hc1, rfl, hc2,
        fun c hcle => trainingLoop_stop _ _ _ _ _ hcle,
        fun c hcle => trainingLoop_stop _ _ _ _ _ hcle⟩

/-- Witness for C7 at a concrete input: `n_iters = 2`, `shots = 1`,
`n_iters_frac = 1/2`, so `total_iters = 2` and `cosine_iters = 1`; one
non-skipped unit batch per pass drives stage 1 to counter 1 and stage 2 to
counter 2. -/
theorem C7_twostage_budgets_witness :
    (0 ≤ (1/2 : ℚ) ∧ (1/2 : ℚ) ≤ 1) ∧
    ((⟨2, 1, 1, 1, 2⟩ : TwoStageRec).cosineIters : ℤ) = ⌊((2 * 1 : ℕ) : ℚ) * (1/2)⌋ :=
  ⟨⟨by norm_num, by norm_num⟩,
    (C7_twostage_budgets 2 1 (1/2) (by norm_num) (by norm_num)
      [[⟨1, 0, 0, 1, 1⟩]] [[⟨1, 0, 0, 1, 1⟩]] ⟨2, 1, 1, 1, 2⟩
      (by norm_num [runTwoStage, trainingLoop, twostageTrainEpoch, trainEpochSecondStage,
        tsLoop, tsStep, epochEpilogue, initSt, skipLrSched, pyInt,
        Int.floor_one])).2.1⟩

theorem cat2idLookup_foldl_none (c : String) :
    ∀ (l : List (ℕ × String)) (acc : Option ℕ),
      l.foldl (fun acc p => if p.2 = c then some p.1 else acc) acc = none ↔
        acc = none ∧ ∀ p ∈ l, p.2 ≠ c := by
  intro l
  induction l with
  | nil => intro acc; simp
  | cons p l ih =>
    intro acc
    simp only [List.foldl_cons]
    rw [ih]
    by_cases hp : p.2 = c
    · simp [hp]
    · simp [hp, List.forall_mem_cons]

theorem cat2idLookup_eq_none_iff (cn : List String) (c : String) :
    cat2idLookup cn c = none ↔ c ∉ cn := by
  unfold cat2idLookup
  rw [cat2idLookup_foldl_none]
  have hm : c ∈ cn ↔ ∃ p ∈ cn.enum, p.2 = c := by
    conv_lhs => rw [← List.enum_map_snd cn]
    rw [List.mem_map]
  constructor
  · intro h hc
    obtain ⟨p, hp, hpc⟩ := hm.mp hc
    exact h.2 p hp hpc
  · intro h
    refine ⟨rfl, fun p hp hpc => h (hm.mpr ⟨p, hp, hpc⟩)⟩

theorem cat2idLookup_mem {cn : List String} {c : String} (h : c ∈ cn) :
    ∃ i, cat2idLookup cn c = some i := by
  have hne : cat2idLookup cn c ≠ none :=
    fun h0 => (cat2idLookup_eq_none_iff cn c).mp h0 h
  cases hl : cat2idLookup cn c with
  | none => exact absurd hl hne
  | some i => exact ⟨i, rfl⟩

theorem infer_cached {d : ℕ} {ι : Type} (enc : String → Vec d) (backbone : ι → Vec d)
    (s : SSC d) (xs : List ι) (categories : List String) {cl : List (Vec d)}
    (h : s.inferenceClassifier = some cl) :
    SSC.infer enc backbone s xs categories true =
      (xs.map (fun im => logitsAgainst s.logitScale (normalizeV (backbone im)) cl),
        s, false) := by
  simp [SSC.infer, h]

theorem infer_build {d : ℕ} {ι : Type} (enc : String → Vec d) (backbone : ι → Vec d)
    (s : SSC d) (xs : List ι) (categories : List String) (co : Bool)
    (h : co = true → s.inferenceClassifier = none) :
    SSC.infer enc backbone s xs categories co =
      (xs.map (fun im => logitsAgainst s.logitScale (normalizeV (backbone im))
          (buildInferClassifier enc s categories)),
        { s with inferenceClassifier := some (buildInferClassifier enc s categories) },
        true) := by
  cases co with
  | false => simp [SSC.infer]
  | true => simp [SSC.infer, h rfl]

/-- C4: `SingleStreamClassifier.infer` reuses the cached inference classifier
(without rebuilding, leaving the instance unchanged) when the reuse flag is
set and a cache exists; otherwise it assembles the classifier — rows of
categories absent from `cat2id` come from the text encoder, rows of known
categories come from the trained classifier matrix, stacked in the order of
`categories` and L2-normalized — and stores it as the cache. -/
theorem C4_infer_cache {d : ℕ} {ι : Type} (enc : String → Vec d) (backbone : ι → Vec d)
    (s : SSC d) (xs : List ι) (categories : List String) :
    (∀ cl, s.inferenceClassifier = some cl →
      SSC.infer enc backbone s xs categories true =
        (xs.map (fun im => logitsAgainst s.logitScale (normalizeV (backbone im)) cl),
          s, false)) ∧
    (∀ co : Bool, (co = true → s.inferenceClassifier = none) →
      SSC.infer enc backbone s xs categories co =
        (xs.map (fun im => logitsAgainst s.logitScale (normalizeV (backbone im))
            (buildInferClassifier enc s categories)),
          { s with inferenceClassifier := some (buildInferClassifier enc s categories) },
          true)) ∧
    (∀ c, c ∉ s.classnames → inferRawRow enc s c = enc c) ∧
    (∀ c, c ∈ s.classnames →
      ∃ i, cat2idLookup s.classnames c = some i ∧
        inferRawRow enc s c = s.classifier.getD i (fun _ => 0)) ∧
    buildInferClassifier enc s categories =
      (categories.map (inferRawRow enc s)).map normalizeV := by
  refine ⟨fun cl h => infer_cached enc backbone s xs categories h,
    fun co h => infer_build enc backbone s xs categories co h, ?_, ?_, rfl⟩
  · intro c hc
    simp [inferRawRow, (cat2idLookup_eq_none_iff s.classnames c).mpr hc]
  · intro c hc
    obtain ⟨i, hi⟩ := cat2idLookup_mem hc
    exact ⟨i, hi, by simp [inferRawRow, hi]⟩

/-- Witness for C4 at a concrete input: an instance carrying a cached
inference classifier is left untouched by `infer` with the reuse flag set. -/
theorem C4_infer_cache_witness :
    ((⟨["a"], [fun _ => 1], 0, some [fun _ => 1]⟩ : SSC 1).inferenceClassifier =
      some [fun _ => 1]) ∧
    SSC.infer (fun _ => (fun _ => 0 : Vec 1)) (fun _ : Unit => (fun _ => 0 : Vec 1))
      ⟨["a"], [fun _ => 1], 0, some [fun _ => 1]⟩ [] ["a"] true =
      ([], ⟨["a"], [fun _ => 1], 0, some [fun _ => 1]⟩, false) :=
  ⟨rfl,
    (C4_infer_cache (fun _ => (fun _ => 0 : Vec 1)) (fun _ : Unit => (fun _ => 0 : Vec 1))
      ⟨["a"], [fun _ => 1], 0, some [fun _ => 1]⟩ [] ["a"]).1 [fun _ => 1] rfl⟩

theorem evalSILoop_cached {d : ℕ} {ι : Type} (enc : String → Vec d) (backbone : ι → Vec d)
    (clsAcc : List (List ℝ) → List ℕ → ℝ) (cn : List String) {cl : List (Vec d)} :
    ∀ (batches : List (List ι × List ℕ)) (s : SSC d) (acc : ℝ) (tot builds : ℕ),
      s.inferenceClassifier = some cl →
      (evalSILoop enc backbone clsAcc cn batches s acc tot builds).1 = s ∧
      (evalSILoop enc backbone clsAcc cn batches s acc tot builds).2.2.2 = builds := by
  intro batches
  induction batches with
  | nil => intro s acc tot builds h; exact ⟨rfl, rfl⟩
  | cons batch rest ih =>
    obtain ⟨images, target⟩ := batch
    intro s acc tot builds h
    simp only [evalSILoop]
    rw [infer_cached enc backbone s images cn h]
    exact ih s _ _ _ h

/-- C5: `evaluate_selective_inference` first removes any cached inference
classifier; for a non-empty loader exactly one classifier construction occurs
during the call (the first batch builds and caches it, subsequent batches
reuse it), the final cache is exactly the classifier built from the current
instance and category list, and the result of the call is independent of any
classifier cached by an earlier call. -/
theorem C5_eval_single_build {d : ℕ} {ι : Type} (enc : String → Vec d)
    (backbone : ι → Vec d) (clsAcc : List (List ℝ) → List ℕ → ℝ) (cn : List String)
    (s : SSC d) (batches : List (List ι × List ℕ)) (h : batches ≠ []) :
    (evalSILoop enc backbone clsAcc cn batches
        { s with inferenceClassifier := none } 0 0 0).2.2.2 = 1 ∧
    (evalSILoop enc backbone clsAcc cn batches
        { s with inferenceClassifier := none } 0 0 0).1.inferenceClassifier =
      some (buildInferClassifier enc { s with inferenceClassifier := none } cn) ∧
    evaluateSelectiveInference enc backbone clsAcc cn s batches =
      evaluateSelectiveInference enc backbone clsAcc cn
        { s with inferenceClassifier := none } batches := by
  cases batches with
  | nil => exact absurd rfl h
  | cons batch rest =>
    obtain ⟨images, target⟩ := batch
    have hres : ∀ acc tot builds,
        (evalSILoop enc backbone clsAcc cn rest { s with inferenceClassifier := some (buildInferClassifier enc { s with inferenceClassifier := none } cn) } acc tot builds).1 = { s with inferenceClassifier := some (buildInferClassifier enc { s with inferenceClassifier := none } cn) } ∧
        (evalSILoop enc backbone clsAcc cn rest { s with inferenceClassifier := some (buildInferClassifier enc { s with inferenceClassifier := none } cn) } acc tot builds).2.2.2 = builds :=
      fun acc tot builds => evalSILoop_cached enc backbone clsAcc cn rest _ acc tot builds rfl
    refine ⟨?_, ?_, rfl⟩
    · simp only [evalSILoop]
      rw [infer_build enc backbone { s with inferenceClassifier := none } images cn true
        (fun _ => rfl)]
      rw [(hres _ _ _).2]
      simp
    · simp only [evalSILoop]
      rw [infer_build enc backbone { s with inferenceClassifier := none } images cn true
        (fun _ => rfl)]
      rw [(hres _ _ _).1]

/-- Witness for C5 at a concrete input: a one-batch loader; the evaluator
loop performs exactly one classifier construction. -/
theorem C5_eval_single_build_witness :
    ([([()], [0])] : List (List Unit × List ℕ)) ≠ [] ∧
    (evalSILoop (fun _ => (fun _ => 1 : Vec 1)) (fun _ : Unit => (fun _ => 1 : Vec 1))
      (fun _ _ => 0) ["a"] [([()], [0])]
      { (⟨["a"], [fun _ => 1], 0, none⟩ : SSC 1) with inferenceClassifier := none }
      0 0 0).2.2.2 = 1 :=
  ⟨List.cons_ne_nil _ _,
    (C5_eval_single_build (fun _ => (fun _ => 1 : Vec 1)) (fun _ : Unit => (fun _ => 1 : Vec 1))
      (fun _ _ => 0) ["a"] ⟨["a"], [fun _ => 1], 0, none⟩ [([()], [0])]
      (List.cons_ne_nil _ _)).1⟩

theorem sum_sq_nonneg {d : ℕ} (v : Vec d) : 0 ≤ ∑ i, v i ^ 2 :=
  Finset.sum_nonneg fun _ _ => sq_nonneg _

theorem l2norm_normalizeV {d : ℕ} {v : Vec d} (h : l2norm v ≠ 0) :
    l2norm (normalizeV v) = 1 := by
  have hne : (∑ i, v i ^ 2) ≠ 0 := by
    intro h0
    exact h (by simp [l2norm, h0, Real.sqrt_zero])
  have hS : (l2norm v) ^ 2 = ∑ j, v j ^ 2 := Real.sq_sqrt (sum_sq_nonneg v)
  have hsum : ∑ i, (normalizeV v i) ^ 2 = 1 := by
    simp only [normalizeV, div_pow]
    rw [← Finset.sum_div, hS, div_self hne]
  simp only [l2norm, hsum, Real.sqrt_one]

/-- C9: every class-embedding matrix used in a similarity computation has
unit-L2-norm rows at that moment (provided each source row is nonzero, since
a zero row is left at norm zero by the division): the classifier built by
`_init_classifier` is row-normalized, `forward` re-normalizes the classifier
rows before the similarity product, and `infer` normalizes the assembled
inference classifier. -/
theorem C9_unit_rows {d : ℕ} {ι : Type} (enc : String → Vec d) (backbone : ι → Vec d)
    (cn : List String) (s : SSC d) (categories : List String) (x : ι)
    (h1 : ∀ c ∈ cn, l2norm (enc c) ≠ 0)
    (h2 : ∀ w ∈ s.classifier, l2norm w ≠ 0)
    (h3 : ∀ c ∈ categories, l2norm (inferRawRow enc s c) ≠ 0) :
    (∀ v ∈ initClassifier enc cn, l2norm v = 1) ∧
    (SSC.forward backbone s x =
      logitsAgainst s.logitScale (normalizeV (backbone x)) (s.classifier.map normalizeV) ∧
      ∀ w ∈ s.classifier.map normalizeV, l2norm w = 1) ∧
    (∀ v ∈ buildInferClassifier enc s categories, l2norm v = 1) := by
  refine ⟨?_, ⟨rfl, ?_⟩, ?_⟩
  · intro v hv
    simp only [initClassifier, List.map_map, List.mem_map, Function.comp] at hv
    obtain ⟨c, hc, rfl⟩ := hv
    exact l2norm_normalizeV (h1 c hc)
  · intro w hw
    simp only [List.mem_map] at hw
    obtain ⟨u, hu, rfl⟩ := hw
    exact l2norm_normalizeV (h2 u hu)
  · intro v hv
    simp only [buildInferClassifier, List.map_map, List.mem_map, Function.comp] at hv
    obtain ⟨c, hc, rfl⟩ := hv
    exact l2norm_normalizeV (h3 c hc)

theorem l2norm_two_ne_zero : l2norm (fun _ : Fin 1 => (2 : ℝ)) ≠ 0 := by
  simp only [l2norm, Fin.sum_univ_one]
  rw [Real.sqrt_ne_zero']
  norm_num

/-- Witness for C9 at a concrete input: the one-dimensional row `(2)` has
nonzero norm, and its normalization (the sole row of the initialized
classifier) has norm 1. -/
theorem C9_unit_rows_witness :
    l2norm (fun _ : Fin 1 => (2 : ℝ)) ≠ 0 ∧
    l2norm (normalizeV (fun _ : Fin 1 => (2 : ℝ))) = 1 :=
  ⟨l2norm_two_ne_zero,
    (C9_unit_rows (fun _ => (fun _ => 2 : Vec 1)) (fun _ : Unit => (fun _ => 1 : Vec 1))
      ["a"] ⟨["a"], [fun _ => 2], 0, none⟩ ["a"] ()
      (fun c _ => l2norm_two_ne_zero)
      (fun w hw => by rw [List.mem_singleton] at hw; rw [hw]; exact l2norm_two_ne_zero)
      (fun c hc => by
        rw [List.mem_singleton] at hc
        rw [hc]
        exact l2norm_two_ne_zero)).1
      (normalizeV (fun _ : Fin 1 => (2 : ℝ))) (List.mem_singleton.mpr rfl)⟩

theorem normalizeV_smul {d : ℕ} (v : Vec d) {a : ℝ} (ha : 0 < a) :
    normalizeV (fun i => a * v i) = normalizeV v := by
  have hnorm : l2norm (fun i => a * v i) = a * l2norm v := by
    simp only [l2norm]
    have hsq : ∑ i, (a * v i) ^ 2 = a ^ 2 * ∑ i, v i ^ 2 := by
      rw [Finset.mul_sum]
      exact Finset.sum_congr rfl fun i _ => by ring
    rw [hsq, Real.sqrt_mul (sq_nonneg a), Real.sqrt_sq_eq_abs, abs_of_pos ha]
  funext i
  simp only [normalizeV, hnorm]
  exact mul_div_mul_left (v i) (l2norm v) (ne_of_gt ha)

theorem zipWith_smul_map_normalizeV {d : ℕ} :
    ∀ (M : List (Vec d)) (cs : List ℝ), cs.length = M.length → (∀ a ∈ cs, 0 < a) →
      (List.zipWith (fun a v => fun i => a * v i) cs M).map normalizeV =
        M.map normalizeV := by
  intro M
  induction M with
  | nil => intro cs _ _; simp
  | cons v M ih =>
    intro cs hlen hpos
    cases cs with
    | nil => simp at hlen
    | cons a cs =>
      simp only [List.zipWith_cons_cons, List.map_cons]
      rw [normalizeV_smul v (hpos a (by simp))]
      rw [ih cs (by simpa using hlen) (fun b hb => hpos b (by simp [hb]))]

/-- C10: `forward` returns identical logits when every classifier row is
multiplied by a positive scalar: the re-normalization of the classifier rows
before the similarity product makes the logits depend only on each row's
direction, never on its magnitude. -/
theorem C10_forward_scale_invariant {d : ℕ} {ι : Type} (backbone : ι → Vec d)
    (cn : List String) (M : List (Vec d)) (scale : ℝ) (cache : Option (List (Vec d)))
    (cs : List ℝ) (x : ι) (hlen : cs.length = M.length) (hpos : ∀ a ∈ cs, 0 < a) :
    SSC.forward backbone
      ⟨cn, List.zipWith (fun a v => fun i => a * v i) cs M, scale, cache⟩ x =
    SSC.forward backbone ⟨cn, M, scale, cache⟩ x := by
  simp only [SSC.forward]
  rw [zipWith_smul_map_normalizeV M cs hlen hpos]

/-- Witness for C10 at a concrete input: scaling the sole classifier row by 2
leaves the forward logits unchanged. -/
theorem C10_forward_scale_invariant_witness :
    (0 : ℝ) < 2 ∧
    SSC.forward (fun _ : Unit => (fun _ => 1 : Vec 1))
      ⟨[], List.zipWith (fun a v => fun i => a * v i) [(2 : ℝ)] [(fun _ => 3 : Vec 1)],
        0, none⟩ () =
    SSC.forward (fun _ : Unit => (fun _ => 1 : Vec 1)) ⟨[], [(fun _ => 3 : Vec 1)], 0, none⟩ () :=
  ⟨by norm_num,
    C10_forward_scale_invariant (fun _ : Unit => (fun _ => 1 : Vec 1)) []
      [(fun _ => 3 : Vec 1)] 0 none [(2 : ℝ)] () rfl
      (fun a ha => by rw [List.mem_singleton] at ha; rw [ha]; norm_num)⟩
